import Mathlib

set_option maxHeartbeats 1000000

/-!
Shallow embedding of the juicebox repository layer (db/index.js).
The Postgres database is modelled as a record of tables; each exported
async function becomes a pure function that threads the database state.
Values returned to JavaScript callers are modelled by `Val` (numbers,
strings, arrays and insertion-ordered objects, plus `undefined`), and a
thrown error is modelled by `Except.error` with a `DBError`.
-/

/-- A JavaScript value as returned by the repository operations. -/
inductive Val where
  | vundef : Val
  | vnum : Nat → Val
  | vstr : String → Val
  | vlist : List Val → Val
  | vobj : List (String × Val) → Val
deriving Repr

/-- A value stored under a key of a caller-supplied `fields` object:
a string, a number, or an array of tag-name strings. -/
inductive FieldVal where
  | str : String → FieldVal
  | num : Nat → FieldVal
  | arr : List String → FieldVal
deriving Repr, DecidableEq

/-- A caller-supplied JavaScript `fields` object: an insertion-ordered
list of key/value pairs. -/
abbrev FieldsObj := List (String × FieldVal)

/-- An error thrown by a repository operation:
`postNotFound` is the `PostNotFoundError` object thrown by `getPostById`;
`typeError` is a JavaScript TypeError (calling `.map` on `undefined` or
on a non-array value); `storeError` is a failed query (unknown column
name in a generated SET clause, or invalid generated SQL). -/
inductive DBError where
  | postNotFound : DBError
  | typeError : DBError
  | storeError : DBError
deriving Repr, DecidableEq

/-- A row of `users(id, username unique, password, name, location)`. -/
structure UserRow where
  id : Nat
  username : String
  password : String
  name : String
  location : String
deriving Repr, DecidableEq

/-- A row of `posts(id, authorId, title, content)`. -/
structure PostRow where
  id : Nat
  authorId : Nat
  title : String
  content : String
deriving Repr, DecidableEq

/-- A row of `tags(id, name unique)`. -/
structure TagRow where
  id : Nat
  name : String
deriving Repr, DecidableEq

/-- The database state: the four tables plus the serial sequences
backing the three `id` columns.  `postTags` rows are `(postId, tagId)`
pairs, unique on the pair. -/
structure DB where
  users : List UserRow
  posts : List PostRow
  tags : List TagRow
  postTags : List (Nat × Nat)
  nextUserId : Nat
  nextPostId : Nat
  nextTagId : Nat
deriving Repr, DecidableEq

/-- A fresh database, as created by the schema: all tables empty and
every serial sequence at 1. -/
def dbEmpty : DB := ⟨[], [], [], [], 1, 1, 1⟩

/-- The full user row as an object, in column order, as produced by
`returning *` in createUser and `SELECT *` in getUserByUsername. -/
def userRowVal (u : UserRow) : Val :=
  .vobj [("id", .vnum u.id), ("username", .vstr u.username),
         ("password", .vstr u.password), ("name", .vstr u.name),
         ("location", .vstr u.location)]

/-- The user projection `id, username, name, location` used by
getAllUsers and by the author lookup inside getPostById. -/
def userProjVal (u : UserRow) : Val :=
  .vobj [("id", .vnum u.id), ("username", .vstr u.username),
         ("name", .vstr u.name), ("location", .vstr u.location)]

/-- The tag row object `{id, name}`. -/
def tagRowVal (t : TagRow) : Val :=
  .vobj [("id", .vnum t.id), ("name", .vstr t.name)]

/-- Reads key `k` of a fields object (JavaScript property access). -/
def lookupField (obj : FieldsObj) (k : String) : Option FieldVal :=
  (obj.find? (fun kv => kv.1 == k)).map (fun kv => kv.2)

/-!  Users  -/

/-- Models `select id, username, name, location from users`. -/
def getAllUsers (db : DB) : List Val :=
  db.users.map userProjVal

/-- Models `insert into users ... on conflict (username) do nothing returning *`.
On a username conflict no row comes back, so the destructured `user`
is `undefined` (`none`); the serial is consumed either way. -/
def createUser (db : DB) (username password name location : String) :
    Option Val × DB :=
  if db.users.any (fun u => u.username == username) then
    (none, { db with nextUserId := db.nextUserId + 1 })
  else
    let u : UserRow := ⟨db.nextUserId, username, password, name, location⟩
    (some (userRowVal u),
     { db with users := db.users ++ [u], nextUserId := db.nextUserId + 1 })

/-- Whether a key/value pair of a fields object names a real `users`
column with a value of the column's type; any other key makes the
generated `update users set "key"=$i` statement fail. -/
def validUserField (kv : String × FieldVal) : Bool :=
  match kv with
  | ("id", .num _) => true
  | ("username", .str _) => true
  | ("password", .str _) => true
  | ("name", .str _) => true
  | ("location", .str _) => true
  | _ => false

/-- Applies the SET clause of the generated user update to one row. -/
def applyUserFields (u : UserRow) (fields : FieldsObj) : UserRow :=
  fields.foldl
    (fun u kv =>
      match kv with
      | ("id", .num n) => { u with id := n }
      | ("username", .str s) => { u with username := s }
      | ("password", .str s) => { u with password := s }
      | ("name", .str s) => { u with name := s }
      | ("location", .str s) => { u with location := s }
      | _ => u)
    u

/-- Models `updateUser(id, fields)`: an empty field mapping returns before any
query; otherwise `update users set ... where id=.. returning *` is run
and its first returned row (or `undefined`) is the result. -/
def updateUser (db : DB) (id : Nat) (fields : FieldsObj) :
    Except DBError (Option Val) × DB :=
  if fields.isEmpty then (.ok none, db)
  else if fields.all validUserField then
    let updated := (db.users.filter (fun u => u.id == id)).map
      (fun u => applyUserFields u fields)
    let db1 := { db with users := (db.users.map
      (fun u => if u.id == id then applyUserFields u fields else u)) }
    (.ok (updated.head?.map userRowVal), db1)
  else (.error .storeError, db)

/-!  Posts: read side  -/

/-- Models `getPostById(postId)`: reads the post row, throwing
`PostNotFoundError` when absent; joins the tags through `post_tags`
(the pair-uniqueness constraint means each associated tag contributes
exactly one joined row); fetches the author projection; attaches both
and deletes the raw `authorId` key from the returned object. -/
def getPostById (db : DB) (postId : Nat) : Except DBError Val :=
  match db.posts.find? (fun p => p.id == postId) with
  | none => .error .postNotFound
  | some p =>
    let tagRows := db.tags.filter (fun t => decide ((postId, t.id) ∈ db.postTags))
    let author := db.users.find? (fun u => u.id == p.authorId)
    .ok (.vobj [("id", .vnum p.id), ("title", .vstr p.title),
                ("content", .vstr p.content),
                ("tags", .vlist (tagRows.map tagRowVal)),
                ("author", match author with
                           | some u => userProjVal u
                           | none => .vundef)])

/-- Fetches the full aggregate for each post id in turn
(`Promise.all(postIds.map(getPostById))`): any rejection rejects the
whole batch. -/
def aggregateAll (db : DB) : List Nat → Except DBError (List Val)
  | [] => .ok []
  | i :: is =>
    match getPostById db i with
    | .error e => .error e
    | .ok v =>
      match aggregateAll db is with
      | .error e => .error e
      | .ok vs => .ok (v :: vs)

/-- Models `select id from posts where "authorId"=..` then aggregate each. -/
def getPostsByUser (db : DB) (userId : Nat) : Except DBError (List Val) :=
  aggregateAll db ((db.posts.filter (fun p => p.authorId == userId)).map (fun p => p.id))

/-- Models `select id from posts` then aggregate each. -/
def getAllPosts (db : DB) : Except DBError (List Val) :=
  aggregateAll db (db.posts.map (fun p => p.id))

/-- Models `getPostsByTagName`: post ids joined through post_tags and tags for
the given name, each then aggregated. -/
def getPostsByTagName (db : DB) (tagName : String) : Except DBError (List Val) :=
  aggregateAll db
    ((db.posts.filter (fun p =>
        db.postTags.any (fun pt =>
          pt.1 == p.id && db.tags.any (fun t => t.id == pt.2 && t.name == tagName)))).map
      (fun p => p.id))

/-- Models `getUserById(userId)`: selects `id, name, username, location`;
returns `undefined` when no row matches or when the row's id is falsy
(the JavaScript `!user.id` check); otherwise attaches the user's posts
under the `posts` key. -/
def getUserById (db : DB) (userId : Nat) : Except DBError (Option Val) :=
  match db.users.find? (fun u => u.id == userId) with
  | none => .ok none
  | some u =>
    if u.id == 0 then .ok none
    else
      match getPostsByUser db u.id with
      | .error e => .error e
      | .ok posts =>
        .ok (some (.vobj [("id", .vnum u.id), ("name", .vstr u.name),
                          ("username", .vstr u.username),
                          ("location", .vstr u.location),
                          ("posts", .vlist posts)]))

/-- Models `SELECT * FROM users WHERE username=$1`: the full raw row,
password included, or `undefined`. -/
def getUserByUsername (db : DB) (username : String) : Option Val :=
  (db.users.find? (fun u => u.username == username)).map userRowVal

/-!  Tags  -/

/-- The batch `insert into tags(name) values ... on conflict (name) do
nothing`: rows are attempted in order; a name already present (also one
inserted earlier in the same statement) is skipped; the serial is
consumed for every attempted row. -/
def insertTagNames (db : DB) : List String → DB
  | [] => db
  | n :: ns =>
    insertTagNames
      (if db.tags.any (fun t => t.name == n) then
        { db with nextTagId := db.nextTagId + 1 }
      else
        { db with tags := db.tags ++ [⟨db.nextTagId, n⟩],
                  nextTagId := db.nextTagId + 1 })
      ns

/-- Models `createTags(tagList)`: an empty list returns `undefined` before any
query; otherwise the conflict-tolerant batch insert runs and then
`select * from tags where tags.name in (...)` returns the canonical
rows for all requested names. -/
def createTags (db : DB) (tagList : List String) :
    Option (List TagRow) × DB :=
  if tagList.isEmpty then (none, db)
  else
    let db1 := insertTagNames db tagList
    (some (db1.tags.filter (fun t => tagList.any (fun n => n == t.name))), db1)

/-!  The post_tags through table  -/

/-- Models `insert into post_tags ... on conflict ("postId","tagId") do
nothing`. -/
def createPostTag (db : DB) (postId tagId : Nat) : DB :=
  if (postId, tagId) ∈ db.postTags then db
  else { db with postTags := db.postTags ++ [(postId, tagId)] }

/-- Links every tag of the list to the post.  The source fires the
inserts concurrently under `Promise.all`; each insert is idempotent and
targets a distinct pair, so the resulting table content does not depend
on the completion order and a left fold models it. -/
def linkAllTags (db : DB) (postId : Nat) : List TagRow → DB
  | [] => db
  | t :: ts => linkAllTags (createPostTag db postId t.id) postId ts

/-- Models `addTagsToPost(postId, tagList)`: maps `createPostTag` over
`tagList` — a TypeError when `tagList` is `undefined` — and then
returns `getPostById(postId)`. -/
def addTagsToPost (db : DB) (postId : Nat) (tagList : Option (List TagRow)) :
    Except DBError Val × DB :=
  match tagList with
  | none => (.error .typeError, db)
  | some l =>
    let db1 := linkAllTags db postId l
    (getPostById db1 postId, db1)

/-!  Posts: write side  -/

/-- Models `createPost({authorId, title, content, tags = []})`: inserts the
post row, resolves the tag names through `createTags`, and hands the
result to `addTagsToPost`. -/
def createPost (db : DB) (authorId : Nat) (title content : String)
    (tags : List String) : Except DBError Val × DB :=
  let p : PostRow := ⟨db.nextPostId, authorId, title, content⟩
  let db1 : DB := { db with posts := db.posts ++ [p],
                            nextPostId := db.nextPostId + 1 }
  let r := createTags db1 tags
  addTagsToPost r.2 p.id r.1

/-- Whether a key/value pair names a real `posts` column with a value
of the column's type. -/
def validPostField (kv : String × FieldVal) : Bool :=
  match kv with
  | ("id", .num _) => true
  | ("authorId", .num _) => true
  | ("title", .str _) => true
  | ("content", .str _) => true
  | _ => false

/-- Applies the SET clause of the generated post update to one row. -/
def applyPostFields (p : PostRow) (fields : FieldsObj) : PostRow :=
  fields.foldl
    (fun p kv =>
      match kv with
      | ("id", .num n) => { p with id := n }
      | ("authorId", .num n) => { p with authorId := n }
      | ("title", .str s) => { p with title := s }
      | ("content", .str s) => { p with content := s }
      | _ => p)
    p

/-- The column-update step of `updatePost`: skipped when no non-tag
keys remain; otherwise the generated update runs, failing (`none`) when
some key is not a valid column. -/
def runPostColumnUpdate (db : DB) (postId : Nat) (fields : FieldsObj) :
    Option DB :=
  if fields.isEmpty then some db
  else if fields.all validPostField then
    some { db with posts := (db.posts.map
      (fun p => if p.id == postId then applyPostFields p fields else p)) }
  else none

/-- Models `updatePost(postId, fields)`: reads and deletes the `tags` key of
the caller's object, applies the remaining keys as a column update,
and, when a tags value was present, reconciles the join table: the
desired names are resolved through `createTags`, every join row of this
post whose tagId is not among the resolved ids is deleted, the resolved
tags are linked, and the fresh aggregate is fetched.  The third
component of the result is the caller's fields object as the call
leaves it (the `tags` key removed in place before any query). -/
def updatePost (db : DB) (postId : Nat) (fieldsObj : FieldsObj) :
    (Except DBError Val × DB) × FieldsObj :=
  let tags := lookupField fieldsObj "tags"
  let fields := fieldsObj.filter (fun kv => !(kv.1 == "tags"))
  match runPostColumnUpdate db postId fields with
  | none => ((.error .storeError, db), fields)
  | some db1 =>
    match tags with
    | none => ((getPostById db1 postId, db1), fields)
    | some (.str _) => ((.error .typeError, db1), fields)
    | some (.num _) => ((.error .typeError, db1), fields)
    | some (.arr tagNames) =>
      match createTags db1 tagNames with
      | (none, db2) => ((.error .typeError, db2), fields)
      | (some tagList, db2) =>
        if tagList.isEmpty then ((.error .storeError, db2), fields)
        else
          let db3 : DB := { db2 with postTags := (db2.postTags.filter
            (fun pt => !(pt.1 == postId && !(tagList.any (fun t => t.id == pt.2))))) }
          match addTagsToPost db3 postId (some tagList) with
          | (.error e, db4) => ((.error e, db4), fields)
          | (.ok _, db4) => ((getPostById db4 postId, db4), fields)

/-!  Shape predicates for returned objects  -/

/-- Whether a returned object carries a top-level field named `k`. -/
def hasField (v : Val) (k : String) : Bool :=
  match v with
  | .vobj fs => fs.any (fun kv => kv.1 == k)
  | _ => false

/-- The exact shape of a post aggregate: the five keys `id, title,
content, tags, author` (so neither `password` nor `authorId` appears),
with the author either `undefined` or the four-key projection
`id, username, name, location` (again no password). -/
def isAggregateShape (v : Val) : Bool :=
  match v with
  | .vobj [("id", .vnum _), ("title", .vstr _), ("content", .vstr _),
           ("tags", .vlist _), ("author", a)] =>
    match a with
    | .vundef => true
    | .vobj [("id", .vnum _), ("username", .vstr _), ("name", .vstr _),
             ("location", .vstr _)] => true
    | _ => false
  | _ => false

/-!  Helper lemmas: the post_tags through table  -/

theorem createPostTag_postTags_mem (db : DB) (pid tid : Nat) (pt : Nat × Nat) :
    pt ∈ (createPostTag db pid tid).postTags ↔ pt ∈ db.postTags ∨ pt = (pid, tid) := by
  unfold createPostTag
  split
  · next h =>
    constructor
    · exact fun hm => Or.inl hm
    · rintro (hm | rfl)
      · exact hm
      · exact h
  · next h => simp [List.mem_append]

theorem createPostTag_frame (db : DB) (pid tid : Nat) :
    (createPostTag db pid tid).users = db.users ∧
    (createPostTag db pid tid).posts = db.posts ∧
    (createPostTag db pid tid).tags = db.tags := by
  unfold createPostTag
  split <;> simp

theorem linkAllTags_frame (l : List TagRow) (db : DB) (pid : Nat) :
    (linkAllTags db pid l).users = db.users ∧
    (linkAllTags db pid l).posts = db.posts ∧
    (linkAllTags db pid l).tags = db.tags := by
  induction l generalizing db with
  | nil => simp [linkAllTags]
  | cons t ts ih =>
    have h1 : linkAllTags db pid (t :: ts) = linkAllTags (createPostTag db pid t.id) pid ts := rfl
    have h2 := ih (createPostTag db pid t.id)
    have h3 := createPostTag_frame db pid t.id
    rw [h1]
    exact ⟨h2.1.trans h3.1, h2.2.1.trans h3.2.1, h2.2.2.trans h3.2.2⟩

theorem linkAllTags_postTags_mem (l : List TagRow) (db : DB) (pid : Nat) (pt : Nat × Nat) :
    pt ∈ (linkAllTags db pid l).postTags ↔
      pt ∈ db.postTags ∨ ∃ t ∈ l, pt = (pid, t.id) := by
  induction l generalizing db with
  | nil => simp [linkAllTags]
  | cons t ts ih =>
    have h1 : linkAllTags db pid (t :: ts) = linkAllTags (createPostTag db pid t.id) pid ts := rfl
    rw [h1, ih, createPostTag_postTags_mem]
    simp only [List.mem_cons]
    constructor
    · rintro ((hm | rfl) | ⟨x, hx, rfl⟩)
      · exact Or.inl hm
      · exact Or.inr ⟨t, Or.inl rfl, rfl⟩
      · exact Or.inr ⟨x, Or.inr hx, rfl⟩
    · rintro (hm | ⟨x, (rfl | hx), rfl⟩)
      · exact Or.inl (Or.inl hm)
      · exact Or.inl (Or.inr rfl)
      · exact Or.inr ⟨x, hx, rfl⟩

/-!  Helper lemmas: tag upsert  -/

theorem insertTagNames_frame (ns : List String) (db : DB) :
    (insertTagNames db ns).users = db.users ∧
    (insertTagNames db ns).posts = db.posts ∧
    (insertTagNames db ns).postTags = db.postTags := by
  induction ns generalizing db with
  | nil => simp [insertTagNames]
  | cons n ns ih =>
    rw [insertTagNames]
    split
    · exact ih _
    · have h2 := ih { db with tags := db.tags ++ [⟨db.nextTagId, n⟩],
                              nextTagId := db.nextTagId + 1 }
      exact h2

theorem insertTagNames_tags_extend (ns : List String) (db : DB) :
    ∃ l, (insertTagNames db ns).tags = db.tags ++ l := by
  induction ns generalizing db with
  | nil => exact ⟨[], by simp [insertTagNames]⟩
  | cons n ns ih =>
    rw [insertTagNames]
    split
    · exact ih _
    · obtain ⟨l, hl⟩ := ih { db with tags := db.tags ++ [⟨db.nextTagId, n⟩],
                                     nextTagId := db.nextTagId + 1 }
      exact ⟨⟨db.nextTagId, n⟩ :: l, by simpa using hl⟩

theorem insertTagNames_tags_sub (ns : List String) (db : DB) (t : TagRow)
    (h : t ∈ db.tags) : t ∈ (insertTagNames db ns).tags := by
  obtain ⟨l, hl⟩ := insertTagNames_tags_extend ns db
  rw [hl]
  exact List.mem_append_left _ h

theorem insertTagNames_mem_name (ns : List String) (db : DB) (n : String) :
    (∃ t, t ∈ (insertTagNames db ns).tags ∧ t.name = n) ↔
      (∃ t, t ∈ db.tags ∧ t.name = n) ∨ n ∈ ns := by
  induction ns generalizing db with
  | nil => simp [insertTagNames]
  | cons m ns ih =>
    rw [insertTagNames]
    split
    · next hany =>
      rw [ih]
      simp only [List.mem_cons]
      constructor
      · rintro (h | h)
        · exact Or.inl h
        · exact Or.inr (Or.inr h)
      · rintro (h | (rfl | h))
        · exact Or.inl h
        · obtain ⟨t, ht, hn⟩ := List.any_eq_true.mp hany
          exact Or.inl ⟨t, ht, by simpa using hn⟩
        · exact Or.inr h
    · next hany =>
      rw [ih]
      simp only [List.mem_append, List.mem_cons, List.not_mem_nil, or_false]
      constructor
      · rintro (⟨t, (ht | rfl), hn⟩ | h)
        · exact Or.inl ⟨t, ht, hn⟩
        · exact Or.inr (Or.inl hn.symm)
        · exact Or.inr (Or.inr h)
      · rintro (⟨t, ht, hn⟩ | (rfl | h))
        · exact Or.inl ⟨t, Or.inl ht, hn⟩
        · exact Or.inl ⟨⟨db.nextTagId, n⟩, Or.inr rfl, rfl⟩
        · exact Or.inr h

theorem insertTagNames_nodup_names (ns : List String) (db : DB)
    (h : (db.tags.map TagRow.name).Nodup) :
    ((insertTagNames db ns).tags.map TagRow.name).Nodup := by
  induction ns generalizing db with
  | nil => simpa [insertTagNames] using h
  | cons m ns ih =>
    rw [insertTagNames]
    split
    · exact ih _ h
    · next hany =>
      apply ih
      simp only [List.map_append, List.map_cons, List.map_nil]
      rw [List.nodup_append]
      refine ⟨h, List.nodup_singleton _, ?_⟩
      intro a ha hb
      simp only [List.mem_singleton] at hb
      simp only [List.mem_map] at ha
      obtain ⟨t, ht, hn⟩ := ha
      have hc : db.tags.any (fun t => t.name == m) = true :=
        List.any_eq_true.mpr ⟨t, ht, by simp [hn.trans hb]⟩
      exact hany hc

theorem filter_names_mem (tags : List TagRow) (ns : List String) (t : TagRow) :
    t ∈ tags.filter (fun t => ns.any (fun n => n == t.name)) ↔
      t ∈ tags ∧ t.name ∈ ns := by
  rw [List.mem_filter]
  refine and_congr_right fun _ => ?_
  rw [List.any_eq_true]
  constructor
  · rintro ⟨n, hn, he⟩
    exact (eq_of_beq he) ▸ hn
  · intro hm
    exact ⟨t.name, hm, by simp⟩

theorem createTags_nil (db : DB) : createTags db [] = (none, db) := rfl

theorem createTags_ne_nil (db : DB) (ns : List String) (h : ns ≠ []) :
    createTags db ns =
      (some ((insertTagNames db ns).tags.filter
               (fun t => ns.any (fun n => n == t.name))),
       insertTagNames db ns) := by
  cases ns with
  | nil => exact absurd rfl h
  | cons m ms => rfl

/-!  Helper lemmas: post reads  -/

theorem getPostById_ok_of_mem (db : DB) (pid : Nat)
    (h : ∃ p ∈ db.posts, p.id = pid) : ∃ v, getPostById db pid = .ok v := by
  obtain ⟨p, hp, hid⟩ := h
  unfold getPostById
  cases hfind : db.posts.find? (fun p => p.id == pid) with
  | none =>
    exfalso
    have := List.find?_eq_none.mp hfind p hp
    simp [hid] at this
  | some q => exact ⟨_, rfl⟩

theorem getPostById_not_found (db : DB) (pid : Nat)
    (h : ∀ p ∈ db.posts, p.id ≠ pid) :
    getPostById db pid = .error .postNotFound := by
  unfold getPostById
  rw [List.find?_eq_none.mpr (fun p hp => by simp [h p hp])]

theorem getPostById_ok_shape (db : DB) (pid : Nat) (v : Val)
    (h : getPostById db pid = .ok v) : isAggregateShape v = true := by
  unfold getPostById at h
  cases hfind : db.posts.find? (fun p => p.id == pid) with
  | none => rw [hfind] at h; cases h
  | some p =>
    rw [hfind] at h
    injection h with h
    subst h
    cases hauth : db.users.find? (fun u => u.id == p.authorId) with
    | none => simp [isAggregateShape, hauth]
    | some u => simp [isAggregateShape, hauth, userProjVal]

/-- Two databases with the same four tables answer getPostById alike. -/
theorem getPostById_congr (db1 db2 : DB) (pid : Nat)
    (hu : db1.users = db2.users) (hp : db1.posts = db2.posts)
    (ht : db1.tags = db2.tags) (hpt : db1.postTags = db2.postTags) :
    getPostById db1 pid = getPostById db2 pid := by
  unfold getPostById
  rw [hu, hp, ht, hpt]

theorem aggregateAll_ok_mem (db : DB) (ids : List Nat) (vs : List Val)
    (h : aggregateAll db ids = .ok vs) :
    ∀ v ∈ vs, ∃ i, getPostById db i = .ok v := by
  induction ids generalizing vs with
  | nil =>
    intro v hv
    simp only [aggregateAll] at h
    injection h with h
    subst h
    cases hv
  | cons i is ih =>
    intro v hv
    simp only [aggregateAll] at h
    cases h1 : getPostById db i with
    | error e => rw [h1] at h; cases h
    | ok w =>
      rw [h1] at h
      cases h2 : aggregateAll db is with
      | error e => rw [h2] at h; cases h
      | ok ws =>
        rw [h2] at h
        injection h with h
        subst h
        rcases List.mem_cons.mp hv with rfl | hv2
        · exact ⟨i, h1⟩
        · exact ih ws h2 v hv2

theorem aggregateAll_ok_of_all (db : DB) (ids : List Nat)
    (h : ∀ i ∈ ids, ∃ p ∈ db.posts, p.id = i) :
    ∃ vs, aggregateAll db ids = .ok vs := by
  induction ids with
  | nil => exact ⟨[], rfl⟩
  | cons i is ih =>
    obtain ⟨v, hv⟩ := getPostById_ok_of_mem db i (h i (List.mem_cons_self i is))
    obtain ⟨vs, hvs⟩ := ih (fun j hj => h j (List.mem_cons_of_mem i hj))
    exact ⟨v :: vs, by simp [aggregateAll, hv, hvs]⟩

theorem getPostsByUser_ok (db : DB) (uid : Nat) :
    ∃ vs, getPostsByUser db uid = .ok vs := by
  apply aggregateAll_ok_of_all
  intro i hi
  simp only [List.mem_map, List.mem_filter] at hi
  obtain ⟨p, ⟨hp, _⟩, rfl⟩ := hi
  exact ⟨p, hp, rfl⟩

theorem getUserById_no_throw (db : DB) (uid : Nat) :
    ∃ r, getUserById db uid = .ok r := by
  cases hfind : db.users.find? (fun u => u.id == uid) with
  | none => exact ⟨none, by unfold getUserById; rw [hfind]⟩
  | some u =>
    obtain ⟨vs, hvs⟩ := getPostsByUser_ok db u.id
    by_cases hz : u.id = 0
    · exact ⟨none, by unfold getUserById; rw [hfind]; simp [hz]⟩
    · exact ⟨some (.vobj [("id", .vnum u.id), ("name", .vstr u.name),
                          ("username", .vstr u.username),
                          ("location", .vstr u.location),
                          ("posts", .vlist vs)]),
        by unfold getUserById; rw [hfind]; simp [hz, hvs]⟩

/-!  Helper lemmas: updatePost with only a tags key  -/

theorem updatePost_tags_only (db : DB) (pid : Nat) (D : List String) :
    updatePost db pid [("tags", FieldVal.arr D)] =
      (match createTags db D with
       | (none, db2) => ((.error .typeError, db2), [])
       | (some tagList, db2) =>
         if tagList.isEmpty then ((.error .storeError, db2), [])
         else
           match addTagsToPost { db2 with postTags := (db2.postTags.filter
               (fun pt => !(pt.1 == pid && !(tagList.any (fun t => t.id == pt.2))))) }
               pid (some tagList) with
           | (.error e, db4) => ((.error e, db4), [])
           | (.ok _, db4) => ((getPostById db4 pid, db4), [])) := by
  rfl

theorem updatePost_tags_run (db db1 : DB) (pid : Nat) (D : List String)
    (l : List TagRow) (v : Val)
    (hct : createTags db D = (some l, db1)) (hlE : l.isEmpty = false)
    (hv : getPostById (linkAllTags { db1 with postTags := (db1.postTags.filter
            (fun pt => !(pt.1 == pid && !(l.any (fun t => t.id == pt.2))))) } pid l)
            pid = .ok v) :
    updatePost db pid [("tags", FieldVal.arr D)] =
      ((.ok v, linkAllTags { db1 with postTags := (db1.postTags.filter
          (fun pt => !(pt.1 == pid && !(l.any (fun t => t.id == pt.2))))) } pid l), []) := by
  rw [updatePost_tags_only, hct]
  dsimp only
  simp only [hlE, Bool.false_eq_true, if_false]
  dsimp only [addTagsToPost]
  rw [hv]
  dsimp only
  rw [hv]

theorem reconciled_postTags_mem (db1 : DB) (pid : Nat) (l : List TagRow) (tid : Nat) :
    (pid, tid) ∈ (linkAllTags { db1 with postTags := (db1.postTags.filter
        (fun pt => !(pt.1 == pid && !(l.any (fun t => t.id == pt.2))))) } pid l).postTags
      ↔ ∃ t ∈ l, t.id = tid := by
  rw [linkAllTags_postTags_mem]
  dsimp only
  constructor
  · rintro (hm | ⟨t, ht, he⟩)
    · rw [List.mem_filter] at hm
      have hpred := hm.2
      simp only [beq_self_eq_true, Bool.true_and, Bool.not_not] at hpred
      obtain ⟨t, ht, he⟩ := List.any_eq_true.mp hpred
      exact ⟨t, ht, eq_of_beq he⟩
    · obtain ⟨-, h2⟩ := Prod.mk.injEq .. ▸ he
      exact ⟨t, ht, h2.symm⟩
  · rintro ⟨t, ht, rfl⟩
    exact Or.inr ⟨t, ht, rfl⟩

theorem reconciled_keep (db1 : DB) (pid : Nat) (l : List TagRow) (pt : Nat × Nat)
    (h : pt ∈ db1.postTags)
    (hkeep : pt.1 ≠ pid ∨ ∃ t ∈ l, t.id = pt.2) :
    pt ∈ (linkAllTags { db1 with postTags := (db1.postTags.filter
        (fun pt => !(pt.1 == pid && !(l.any (fun t => t.id == pt.2))))) } pid l).postTags := by
  rw [linkAllTags_postTags_mem]
  left
  dsimp only
  rw [List.mem_filter]
  refine ⟨h, ?_⟩
  rcases hkeep with hne | ⟨t, ht, hid⟩
  · simp [hne]
  · have hany : l.any (fun x => x.id == pt.2) = true :=
      List.any_eq_true.mpr ⟨t, ht, by simp [hid]⟩
    simp [hany]

theorem isEmpty_false_of_mem {α : Type} {l : List α} {a : α} (h : a ∈ l) :
    l.isEmpty = false := by
  cases l with
  | nil => cases h
  | cons x xs => rfl

theorem reconciled_other (db1 : DB) (pid : Nat) (l : List TagRow) (pt : Nat × Nat)
    (hne : pt.1 ≠ pid) :
    pt ∈ (linkAllTags { db1 with postTags := (db1.postTags.filter
        (fun pt => !(pt.1 == pid && !(l.any (fun t => t.id == pt.2))))) } pid l).postTags
      ↔ pt ∈ db1.postTags := by
  rw [linkAllTags_postTags_mem]
  constructor
  · rintro (hm | ⟨t, ht, rfl⟩)
    · exact (List.mem_filter.mp hm).1
    · exact absurd rfl hne
  · intro hm
    exact Or.inl (List.mem_filter.mpr ⟨hm, by simp [hne]⟩)

theorem reconcile_summary (db db1 : DB) (pid : Nat) (D : List String) (l : List TagRow)
    (hD : D ≠ [])
    (hct : createTags db D = (some l, db1))
    (hfp : db1.posts = db.posts) (hfpt : db1.postTags = db.postTags)
    (hmeml : ∀ t, t ∈ l ↔ t ∈ db1.tags ∧ t.name ∈ D)
    (hnames : ∀ n ∈ D, ∃ t, t ∈ db1.tags ∧ t.name = n)
    (hsub : ∀ t ∈ db.tags, t ∈ db1.tags)
    (hpost : ∃ p ∈ db.posts, p.id = pid) :
    ∃ v db2,
      updatePost db pid [("tags", FieldVal.arr D)] = ((Except.ok v, db2), []) ∧
      getPostById db2 pid = Except.ok v ∧
      (∀ tid, (pid, tid) ∈ db2.postTags ↔ ∃ t ∈ db2.tags, t.id = tid ∧ t.name ∈ D) ∧
      (∀ n ∈ D, ∃ t ∈ db2.tags, t.name = n) ∧
      (∀ t ∈ db.tags, t ∈ db2.tags) ∧
      (∀ pt ∈ db.postTags, pt.1 = pid →
        (∃ t ∈ db2.tags, t.id = pt.2 ∧ t.name ∈ D) → pt ∈ db2.postTags) ∧
      (∀ pt : Nat × Nat, pt.1 ≠ pid → (pt ∈ db2.postTags ↔ pt ∈ db.postTags)) := by
  obtain ⟨p, hp, hpid⟩ := hpost
  -- the resolved tag list is non-empty
  obtain ⟨n0, hn0⟩ : ∃ n0, n0 ∈ D := by
    cases D with
    | nil => exact absurd rfl hD
    | cons a as => exact ⟨a, List.mem_cons_self a as⟩
  obtain ⟨t0, ht0, ht0n⟩ := hnames n0 hn0
  have ht0l : t0 ∈ l := (hmeml t0).mpr ⟨ht0, by rw [ht0n]; exact hn0⟩
  have hlE : l.isEmpty = false := isEmpty_false_of_mem ht0l
  -- frames of the final database
  obtain ⟨h4u, h4p, h4t⟩ := linkAllTags_frame l
    { db1 with postTags := (db1.postTags.filter
        (fun pt => !(pt.1 == pid && !(l.any (fun t => t.id == pt.2))))) } pid
  have hposts2 : (linkAllTags { db1 with postTags := (db1.postTags.filter
      (fun pt => !(pt.1 == pid && !(l.any (fun t => t.id == pt.2))))) } pid l).posts
      = db.posts := by
    rw [h4p]
    exact hfp
  have htags2 : (linkAllTags { db1 with postTags := (db1.postTags.filter
      (fun pt => !(pt.1 == pid && !(l.any (fun t => t.id == pt.2))))) } pid l).tags
      = db1.tags := h4t
  -- the post still exists, so the final read succeeds
  obtain ⟨v, hv⟩ := getPostById_ok_of_mem
    (linkAllTags { db1 with postTags := (db1.postTags.filter
        (fun pt => !(pt.1 == pid && !(l.any (fun t => t.id == pt.2))))) } pid l) pid
    ⟨p, by rw [hposts2]; exact hp, hpid⟩
  refine ⟨v, _, updatePost_tags_run db db1 pid D l v hct hlE hv, hv, ?_, ?_, ?_, ?_, ?_⟩
  · intro tid
    rw [reconciled_postTags_mem db1 pid l tid]
    constructor
    · rintro ⟨t, ht, rfl⟩
      obtain ⟨htag, hname⟩ := (hmeml t).mp ht
      exact ⟨t, by rw [htags2]; exact htag, rfl, hname⟩
    · rintro ⟨t, htag, hid, hname⟩
      rw [htags2] at htag
      exact ⟨t, (hmeml t).mpr ⟨htag, hname⟩, hid⟩
  · intro n hn
    obtain ⟨t, htag, hname⟩ := hnames n hn
    exact ⟨t, by rw [htags2]; exact htag, hname⟩
  · intro t ht
    rw [htags2]
    exact hsub t ht
  · rintro pt hpt hfst ⟨t, htag, hid, hname⟩
    rw [htags2] at htag
    have hl : t ∈ l := (hmeml t).mpr ⟨htag, hname⟩
    have hbase : pt ∈ db1.postTags := by rw [hfpt]; exact hpt
    have := reconciled_keep db1 pid l pt hbase (Or.inr ⟨t, hl, hid⟩)
    exact this
  · intro pt hne
    rw [reconciled_other db1 pid l pt hne, hfpt]

/-- C1: for every post id present in the store and every non-empty desired
tag-name sequence D, `updatePost(postId, {tags: D})` succeeds, returns the
freshly aggregated post, and afterwards the join rows for this post are
exactly the resolved tags of D: a tagId is linked iff it is the id of a
stored tag whose name is in D; every requested name has a resolved row;
pre-existing tag rows keep their ids (the tag table only grows); join rows
for tags in both the prior set and D are kept (idempotent linking); and the
join rows of every other post are untouched. -/
theorem updatePost_reconciles_tag_set (db : DB) (pid : Nat) (D : List String)
    (hD : D ≠ []) (hpost : ∃ p ∈ db.posts, p.id = pid) :
    ∃ v db2,
      updatePost db pid [("tags", FieldVal.arr D)] = ((Except.ok v, db2), []) ∧
      getPostById db2 pid = Except.ok v ∧
      (∀ tid, (pid, tid) ∈ db2.postTags ↔ ∃ t ∈ db2.tags, t.id = tid ∧ t.name ∈ D) ∧
      (∀ n ∈ D, ∃ t ∈ db2.tags, t.name = n) ∧
      (∀ t ∈ db.tags, t ∈ db2.tags) ∧
      (∀ pt ∈ db.postTags, pt.1 = pid →
        (∃ t ∈ db2.tags, t.id = pt.2 ∧ t.name ∈ D) → pt ∈ db2.postTags) ∧
      (∀ pt : Nat × Nat, pt.1 ≠ pid → (pt ∈ db2.postTags ↔ pt ∈ db.postTags)) := by
  obtain ⟨hfu, hfp, hfpt⟩ := insertTagNames_frame D db
  exact reconcile_summary db (insertTagNames db D) pid D
    ((insertTagNames db D).tags.filter (fun t => D.any (fun n => n == t.name)))
    hD (createTags_ne_nil db D hD) hfp hfpt
    (fun t => filter_names_mem (insertTagNames db D).tags D t)
    (fun n hn => (insertTagNames_mem_name D db n).mpr (Or.inr hn))
    (insertTagNames_tags_sub D db)
    hpost

/-!  Concrete databases used by witnesses and counterexamples  -/

/-- One user, one post by that user, two tags both linked to the post. -/
def dbW1 : DB :=
  ⟨[⟨1, "alice", "pw", "Alice", "NY"⟩], [⟨1, 1, "t", "c"⟩],
   [⟨1, "#a"⟩, ⟨2, "#b"⟩], [(1, 1), (1, 2)], 2, 2, 3⟩

/-- One post with a single linked tag. -/
def dbC2 : DB := ⟨[], [⟨1, 1, "t", "c"⟩], [⟨1, "#a"⟩], [(1, 1)], 1, 2, 2⟩

/-- C1 witness: the reconciliation theorem applied to a store where post 1
carries tags #a and #b and the desired set is [#a, #c]. -/
theorem updatePost_reconciles_tag_set_witness :
    ∃ v db2,
      updatePost dbW1 1 [("tags", FieldVal.arr ["#a", "#c"])] = ((Except.ok v, db2), []) ∧
      getPostById db2 1 = Except.ok v ∧
      (∀ tid, (1, tid) ∈ db2.postTags ↔ ∃ t ∈ db2.tags, t.id = tid ∧ t.name ∈ ["#a", "#c"]) ∧
      (∀ n ∈ ["#a", "#c"], ∃ t ∈ db2.tags, t.name = n) ∧
      (∀ t ∈ dbW1.tags, t ∈ db2.tags) ∧
      (∀ pt ∈ dbW1.postTags, pt.1 = 1 →
        (∃ t ∈ db2.tags, t.id = pt.2 ∧ t.name ∈ ["#a", "#c"]) → pt ∈ db2.postTags) ∧
      (∀ pt : Nat × Nat, pt.1 ≠ 1 → (pt ∈ db2.postTags ↔ pt ∈ dbW1.postTags)) :=
  updatePost_reconciles_tag_set dbW1 1 ["#a", "#c"] (by decide)
    ⟨⟨1, 1, "t", "c"⟩, by decide, rfl⟩

/-- C2 counterexample: with post 1 linked to tag 1, `updatePost(1, {tags: []})`
does not drop the tags and return the post; it throws a TypeError
(`createTags([])` returns `undefined` and `.map` is called on it) and the
join row survives. -/
theorem updatePost_empty_tags_cx :
    (updatePost dbC2 1 [("tags", FieldVal.arr [])]).1.1
        = Except.error DBError.typeError ∧
    (updatePost dbC2 1 [("tags", FieldVal.arr [])]).1.2.postTags = [(1, 1)] :=
  ⟨rfl, rfl⟩

theorem runPostColumnUpdate_frame (db : DB) (pid : Nat) (fields : FieldsObj)
    (db1 : DB) (h : runPostColumnUpdate db pid fields = some db1) :
    db1.users = db.users ∧ db1.tags = db.tags ∧ db1.postTags = db.postTags := by
  unfold runPostColumnUpdate at h
  split at h
  · injection h with h
    subst h
    exact ⟨rfl, rfl, rfl⟩
  · split at h
    · injection h with h
      subst h
      exact ⟨rfl, rfl, rfl⟩
    · cases h

/-- C2 (amended): an empty `fields.tags` array makes `updatePost` throw a
TypeError with the join table untouched; an absent `tags` key leaves the
join and tag tables untouched; and with an empty fields object the call
just re-fetches the existing post. -/
theorem updatePost_empty_vs_absent :
    (∀ (db : DB) (pid : Nat),
      updatePost db pid [("tags", FieldVal.arr [])]
        = ((Except.error DBError.typeError, db), [])) ∧
    (∀ (db : DB) (pid : Nat) (f : FieldsObj), lookupField f "tags" = none →
      (updatePost db pid f).1.2.postTags = db.postTags ∧
      (updatePost db pid f).1.2.tags = db.tags) ∧
    (∀ (db : DB) (pid : Nat),
      updatePost db pid [] = ((getPostById db pid, db), [])) := by
  refine ⟨fun db pid => rfl, ?_, fun db pid => rfl⟩
  intro db pid f h
  simp only [updatePost]
  rw [h]
  cases hcu : runPostColumnUpdate db pid (f.filter fun kv => !(kv.1 == "tags")) with
  | none => exact ⟨rfl, rfl⟩
  | some db1 =>
    obtain ⟨-, ht1, hpt1⟩ := runPostColumnUpdate_frame db pid _ db1 hcu
    exact ⟨hpt1, ht1⟩

/-- C2 witness: a tags-less fields object leaves the join and tag tables
of the concrete store untouched. -/
theorem updatePost_empty_vs_absent_witness :
    (updatePost dbC2 1 [("title", FieldVal.str "x")]).1.2.postTags = dbC2.postTags ∧
    (updatePost dbC2 1 [("title", FieldVal.str "x")]).1.2.tags = dbC2.tags :=
  updatePost_empty_vs_absent.2.1 dbC2 1 [("title", FieldVal.str "x")] rfl

/-- C4: `createPost` with an omitted or empty tag list (the source defaults
an omitted list to `[]`) first inserts the post row and then throws a
TypeError (`createTags` returns `undefined` for an empty list and
`addTagsToPost` maps over it): the caller gets the error while the new
post row stays in the store, with the join, tag and user tables untouched
and no rollback. -/
theorem createPost_empty_tags (db : DB) (aid : Nat) (title content : String) :
    (createPost db aid title content []).1 = Except.error DBError.typeError ∧
    (createPost db aid title content []).2.posts
      = db.posts ++ [⟨db.nextPostId, aid, title, content⟩] ∧
    (createPost db aid title content []).2.postTags = db.postTags ∧
    (createPost db aid title content []).2.tags = db.tags ∧
    (createPost db aid title content []).2.users = db.users :=
  ⟨rfl, rfl, rfl, rfl, rfl⟩

/-- C9: an empty field mapping is a no-op: `updateUser(id, {})` returns the
silent no-result without touching the store, and `updatePost(id, {})` (no
tags key) just re-fetches the existing post, also without touching the
store. -/
theorem noop_updates (db : DB) (uid pid : Nat) :
    updateUser db uid [] = (Except.ok none, db) ∧
    updatePost db pid [] = ((getPostById db pid, db), []) :=
  ⟨rfl, rfl⟩

theorem lookupField_filter_self (f : FieldsObj) :
    lookupField (f.filter (fun kv => !(kv.1 == "tags"))) "tags" = none := by
  unfold lookupField
  rw [List.find?_eq_none.mpr]
  · rfl
  · intro kv hkv
    have h := (List.mem_filter.mp hkv).2
    rw [Bool.not_eq_true'] at h
    simp [h]

/-- C10: `updatePost` deletes the `tags` key from the caller's fields
object before doing anything else, on every control path: the object the
caller holds after the call is its original object minus the `tags` key,
so looking up `tags` on it yields nothing. -/
theorem updatePost_removes_tags_key (db : DB) (pid : Nat) (f : FieldsObj) :
    (updatePost db pid f).2 = f.filter (fun kv => !(kv.1 == "tags")) ∧
    lookupField (updatePost db pid f).2 "tags" = none := by
  have h2 : (updatePost db pid f).2 = f.filter (fun kv => !(kv.1 == "tags")) := by
    simp only [updatePost]
    split
    · rfl
    · split
      · rfl
      · rfl
      · rfl
      · split
        · rfl
        · split
          · rfl
          · split
            · rfl
            · rfl
  exact ⟨h2, by rw [h2]; exact lookupField_filter_self f⟩

/-- C5: absence handling is asymmetric: `getUserById` with an id matching
no user row returns the silent no-result (`ok none`), while `getPostById`
with an id matching no post row throws the NotFound error; and the
NotFound error is never produced by the user-side operations (their
results are either plain values or, for updateUser, at most a store
failure). -/
theorem absence_asymmetry (db : DB) (uid pid : Nat)
    (hu : ∀ u ∈ db.users, u.id ≠ uid)
    (hp : ∀ p ∈ db.posts, p.id ≠ pid) :
    getUserById db uid = Except.ok none ∧
    getPostById db pid = Except.error DBError.postNotFound ∧
    (∀ (db2 : DB) (u2 : Nat), getUserById db2 u2 ≠ Except.error DBError.postNotFound) ∧
    (∀ (db2 : DB) (i : Nat) (f : FieldsObj),
      (updateUser db2 i f).1 ≠ Except.error DBError.postNotFound) := by
  refine ⟨?_, getPostById_not_found db pid hp, ?_, ?_⟩
  · unfold getUserById
    rw [List.find?_eq_none.mpr (fun u hu2 => by simp [hu u hu2])]
  · intro db2 u2
    obtain ⟨r, hr⟩ := getUserById_no_throw db2 u2
    rw [hr]
    simp
  · intro db2 i f
    unfold updateUser
    split
    · simp
    · split
      · simp
      · simp

/-- C5 witness: the asymmetry on the empty store at id 1. -/
theorem absence_asymmetry_witness :
    getUserById dbEmpty 1 = Except.ok none ∧
    getPostById dbEmpty 1 = Except.error DBError.postNotFound ∧
    (∀ (db2 : DB) (u2 : Nat), getUserById db2 u2 ≠ Except.error DBError.postNotFound) ∧
    (∀ (db2 : DB) (i : Nat) (f : FieldsObj),
      (updateUser db2 i f).1 ≠ Except.error DBError.postNotFound) :=
  absence_asymmetry dbEmpty 1 1 (by simp [dbEmpty]) (by simp [dbEmpty])

/-- C6: inserting a user whose username is new returns the created row;
repeating the insert with the same username is silently skipped: it
returns the no-result instead of raising, adds no row, and the store
holds exactly one row for that username afterwards. -/
theorem createUser_conflict_tolerance (db : DB)
    (un pw nm loc pw2 nm2 loc2 : String)
    (h : ∀ u ∈ db.users, u.username ≠ un) :
    ∃ v db1,
      createUser db un pw nm loc = (some v, db1) ∧
      (createUser db1 un pw2 nm2 loc2).1 = none ∧
      (createUser db1 un pw2 nm2 loc2).2.users = db1.users ∧
      ((createUser db1 un pw2 nm2 loc2).2.users.filter
          (fun u => u.username == un)).length = 1 := by
  have hany : (db.users.any (fun u => u.username == un)) = false := by
    rw [List.any_eq_false]
    intro u hu
    simp [h u hu]
  have hstep : ∃ v db1, createUser db un pw nm loc = (some v, db1) ∧
      db1.users = db.users ++ [⟨db.nextUserId, un, pw, nm, loc⟩] := by
    unfold createUser
    rw [hany]
    exact ⟨_, _, rfl, rfl⟩
  obtain ⟨v, db1, h1, husers1⟩ := hstep
  have hany2 : (db1.users.any (fun u => u.username == un)) = true := by
    rw [husers1]
    exact List.any_eq_true.mpr ⟨⟨db.nextUserId, un, pw, nm, loc⟩, by simp, by simp⟩
  have h2 : createUser db1 un pw2 nm2 loc2
      = (none, { db1 with nextUserId := db1.nextUserId + 1 }) := by
    unfold createUser
    rw [hany2]
    rfl
  refine ⟨v, db1, h1, ?_, ?_, ?_⟩
  · rw [h2]
  · rw [h2]
  · rw [h2]
    show (db1.users.filter (fun u => u.username == un)).length = 1
    rw [husers1, List.filter_append,
      List.filter_eq_nil_iff.mpr (fun u hu => by simp [h u hu])]
    simp

/-- C6 witness: the conflict-tolerance theorem on the empty store with
username alice inserted twice. -/
theorem createUser_conflict_tolerance_witness :
    ∃ v db1,
      createUser dbEmpty "alice" "pw" "Alice" "NY" = (some v, db1) ∧
      (createUser db1 "alice" "pw2" "B" "LA").1 = none ∧
      (createUser db1 "alice" "pw2" "B" "LA").2.users = db1.users ∧
      ((createUser db1 "alice" "pw2" "B" "LA").2.users.filter
          (fun u => u.username == "alice")).length = 1 :=
  createUser_conflict_tolerance dbEmpty "alice" "pw" "Alice" "NY" "pw2" "B" "LA"
    (by simp [dbEmpty])

theorem unique_name_row (tags : List TagRow)
    (hnodup : (tags.map TagRow.name).Nodup)
    {n : String} (hex : ∃ t, t ∈ tags ∧ t.name = n) :
    ∃ t, t ∈ tags ∧ t.name = n ∧ ∀ t2 ∈ tags, t2.name = n → t2 = t := by
  obtain ⟨t, ht, hn⟩ := hex
  refine ⟨t, ht, hn, ?_⟩
  intro t2 ht2 hn2
  exact List.inj_on_of_nodup_map hnodup ht2 ht (by rw [hn2, hn])

/-- C3: `createTags` is an idempotent upsert-get: the empty sequence
returns nothing and leaves the store alone; a non-empty sequence returns
exactly the stored rows whose name is requested, with every requested name
afterwards held by exactly one row (given the unique-name invariant, which
is preserved); existing rows are kept; and a second overlapping call still
leaves exactly one row per unique name of either call. -/
theorem createTags_upsert_get (db : DB) (names names2 : List String)
    (hnodup : (db.tags.map TagRow.name).Nodup) (hne : names ≠ []) :
    createTags db [] = (none, db) ∧
    ∃ l db1,
      createTags db names = (some l, db1) ∧
      (∀ t, t ∈ l ↔ t ∈ db1.tags ∧ t.name ∈ names) ∧
      (∀ n ∈ names, ∃ t, t ∈ l ∧ t.name = n ∧
        ∀ t2 ∈ db1.tags, t2.name = n → t2 = t) ∧
      (∀ t ∈ db.tags, t ∈ db1.tags) ∧
      (db1.tags.map TagRow.name).Nodup ∧
      (names2 ≠ [] → ∃ l2 db2, createTags db1 names2 = (some l2, db2) ∧
        ∀ n, n ∈ names ∨ n ∈ names2 →
          ∃ t, t ∈ db2.tags ∧ t.name = n ∧ ∀ t2 ∈ db2.tags, t2.name = n → t2 = t) := by
  have hnd1 := insertTagNames_nodup_names names db hnodup
  refine ⟨rfl, _, _, createTags_ne_nil db names hne,
    (fun t => filter_names_mem _ names t), ?_, insertTagNames_tags_sub names db,
    hnd1, ?_⟩
  · intro n hn
    have hex : ∃ t, t ∈ (insertTagNames db names).tags ∧ t.name = n :=
      (insertTagNames_mem_name names db n).mpr (Or.inr hn)
    obtain ⟨t, ht, htn, huniq⟩ := unique_name_row _ hnd1 hex
    exact ⟨t, (filter_names_mem _ names t).mpr ⟨ht, by rw [htn]; exact hn⟩,
      htn, huniq⟩
  · intro hne2
    refine ⟨_, _, createTags_ne_nil (insertTagNames db names) names2 hne2, ?_⟩
    intro n hn
    have hnd2 := insertTagNames_nodup_names names2 (insertTagNames db names) hnd1
    have hex : ∃ t, t ∈ (insertTagNames (insertTagNames db names) names2).tags ∧
        t.name = n := by
      rcases hn with hn | hn
      · obtain ⟨t, ht, htn⟩ := (insertTagNames_mem_name names db n).mpr (Or.inr hn)
        exact ⟨t, insertTagNames_tags_sub names2 _ t ht, htn⟩
      · exact (insertTagNames_mem_name names2 _ n).mpr (Or.inr hn)
    exact unique_name_row _ hnd2 hex

/-- C3 witness: the upsert-get theorem on the empty store, first creating
#a and then the overlapping set #a, #b. -/
theorem createTags_upsert_get_witness :
    createTags dbEmpty [] = (none, dbEmpty) ∧
    ∃ l db1,
      createTags dbEmpty ["#a"] = (some l, db1) ∧
      (∀ t, t ∈ l ↔ t ∈ db1.tags ∧ t.name ∈ ["#a"]) ∧
      (∀ n ∈ ["#a"], ∃ t, t ∈ l ∧ t.name = n ∧
        ∀ t2 ∈ db1.tags, t2.name = n → t2 = t) ∧
      (∀ t ∈ dbEmpty.tags, t ∈ db1.tags) ∧
      (db1.tags.map TagRow.name).Nodup ∧
      (["#a", "#b"] ≠ [] → ∃ l2 db2, createTags db1 ["#a", "#b"] = (some l2, db2) ∧
        ∀ n, n ∈ ["#a"] ∨ n ∈ ["#a", "#b"] →
          ∃ t, t ∈ db2.tags ∧ t.name = n ∧ ∀ t2 ∈ db2.tags, t2.name = n → t2 = t) :=
  createTags_upsert_get dbEmpty ["#a"] ["#a", "#b"] (by simp [dbEmpty]) (by simp)

/-!  Shape facts about returned aggregates  -/

/-- What C7 asserts of one returned post aggregate: it has exactly the
aggregate shape (so it carries `tags` and `author` and neither a
top-level `password` nor the raw `authorId` key, and the author
projection carries no password either). -/
def aggProps (v : Val) : Prop :=
  isAggregateShape v = true ∧ hasField v "password" = false ∧
  hasField v "authorId" = false ∧ hasField v "author" = true ∧
  hasField v "tags" = true

theorem getPostById_ok_props (db : DB) (pid : Nat) (v : Val)
    (h : getPostById db pid = .ok v) : aggProps v := by
  unfold getPostById at h
  cases hfind : db.posts.find? (fun p => p.id == pid) with
  | none => rw [hfind] at h; cases h
  | some p =>
    rw [hfind] at h
    injection h with h
    subst h
    refine ⟨?_, rfl, rfl, rfl, rfl⟩
    cases hauth : db.users.find? (fun u => u.id == p.authorId) with
    | none => simp [isAggregateShape, hauth]
    | some u => simp [isAggregateShape, hauth, userProjVal]

theorem addTagsToPost_ok_val (db : DB) (pid : Nat) (tl : Option (List TagRow))
    (v : Val) (h : (addTagsToPost db pid tl).1 = .ok v) :
    ∃ dbx, getPostById dbx pid = .ok v := by
  unfold addTagsToPost at h
  cases tl with
  | none => simp at h
  | some l => exact ⟨_, h⟩

theorem createPost_ok_val (db : DB) (aid : Nat) (ti co : String)
    (tg : List String) (v : Val) (h : (createPost db aid ti co tg).1 = .ok v) :
    ∃ dbx pidx, getPostById dbx pidx = .ok v := by
  unfold createPost at h
  obtain ⟨dbx, hx⟩ := addTagsToPost_ok_val _ _ _ _ h
  exact ⟨dbx, _, hx⟩

theorem updatePost_ok_val (db : DB) (pid : Nat) (f : FieldsObj) (v : Val)
    (h : (updatePost db pid f).1.1 = .ok v) :
    ∃ dbx, getPostById dbx pid = .ok v := by
  simp only [updatePost] at h
  split at h
  · simp at h
  · split at h
    · exact ⟨_, h⟩
    · simp at h
    · simp at h
    · split at h
      · simp at h
      · split at h
        · simp at h
        · split at h
          · simp at h
          · exact ⟨_, h⟩

/-- C7: every post aggregate a read returns — from `getPostById` directly,
from the three list reads, or as the value of `createPost`, `updatePost`
or `addTagsToPost` — has the aggregate shape: it exposes `tags` and an
`author` projection and never a `password` or raw `authorId` field. -/
theorem post_reads_expose_only_aggregate :
    (∀ (db : DB) (pid : Nat) (v : Val),
      getPostById db pid = Except.ok v → aggProps v) ∧
    (∀ (db : DB) (vs : List Val),
      getAllPosts db = Except.ok vs → ∀ v ∈ vs, aggProps v) ∧
    (∀ (db : DB) (uid : Nat) (vs : List Val),
      getPostsByUser db uid = Except.ok vs → ∀ v ∈ vs, aggProps v) ∧
    (∀ (db : DB) (tn : String) (vs : List Val),
      getPostsByTagName db tn = Except.ok vs → ∀ v ∈ vs, aggProps v) ∧
    (∀ (db : DB) (aid : Nat) (ti co : String) (tg : List String) (v : Val),
      (createPost db aid ti co tg).1 = Except.ok v → aggProps v) ∧
    (∀ (db : DB) (pid : Nat) (f : FieldsObj) (v : Val),
      (updatePost db pid f).1.1 = Except.ok v → aggProps v) ∧
    (∀ (db : DB) (pid : Nat) (tl : Option (List TagRow)) (v : Val),
      (addTagsToPost db pid tl).1 = Except.ok v → aggProps v) := by
  have hagg : ∀ (db : DB) (ids : List Nat) (vs : List Val),
      aggregateAll db ids = .ok vs → ∀ v ∈ vs, aggProps v := by
    intro db ids vs h v hv
    obtain ⟨i, hi⟩ := aggregateAll_ok_mem db ids vs h v hv
    exact getPostById_ok_props db i v hi
  refine ⟨fun db pid v h => getPostById_ok_props db pid v h, ?_, ?_, ?_, ?_, ?_, ?_⟩
  · intro db vs h
    unfold getAllPosts at h
    exact hagg db _ vs h
  · intro db uid vs h
    unfold getPostsByUser at h
    exact hagg db _ vs h
  · intro db tn vs h
    unfold getPostsByTagName at h
    exact hagg db _ vs h
  · intro db aid ti co tg v h
    obtain ⟨dbx, pidx, hx⟩ := createPost_ok_val db aid ti co tg v h
    exact getPostById_ok_props dbx pidx v hx
  · intro db pid f v h
    obtain ⟨dbx, hx⟩ := updatePost_ok_val db pid f v h
    exact getPostById_ok_props dbx pid v hx
  · intro db pid tl v h
    obtain ⟨dbx, hx⟩ := addTagsToPost_ok_val db pid tl v h
    exact getPostById_ok_props dbx pid v hx

/-- C7 witness: the aggregate of post 1 in the concrete store dbC2 has the
aggregate shape. -/
theorem post_reads_expose_only_aggregate_witness :
    aggProps (Val.vobj [("id", Val.vnum 1), ("title", Val.vstr "t"),
      ("content", Val.vstr "c"),
      ("tags", Val.vlist [Val.vobj [("id", Val.vnum 1), ("name", Val.vstr "#a")]]),
      ("author", Val.vundef)]) :=
  post_reads_expose_only_aggregate.1 dbC2 1
    (Val.vobj [("id", Val.vnum 1), ("title", Val.vstr "t"),
      ("content", Val.vstr "c"),
      ("tags", Val.vlist [Val.vobj [("id", Val.vnum 1), ("name", Val.vstr "#a")]]),
      ("author", Val.vundef)]) rfl

/-- C8 counterexample: `createUser` (insert ... returning *) hands the
caller the full row including the password, and `getUserByUsername`
(SELECT *) does the same, so "the password is never returned by any
repository operation" is false. -/
theorem password_returned_cx :
    (createUser dbEmpty "alice" "pw" "Alice" "NY").1
      = some (Val.vobj [("id", Val.vnum 1), ("username", Val.vstr "alice"),
          ("password", Val.vstr "pw"), ("name", Val.vstr "Alice"),
          ("location", Val.vstr "NY")]) ∧
    hasField (Val.vobj [("id", Val.vnum 1), ("username", Val.vstr "alice"),
          ("password", Val.vstr "pw"), ("name", Val.vstr "Alice"),
          ("location", Val.vstr "NY")]) "password" = true ∧
    getUserByUsername (createUser dbEmpty "alice" "pw" "Alice" "NY").2 "alice"
      = some (Val.vobj [("id", Val.vnum 1), ("username", Val.vstr "alice"),
          ("password", Val.vstr "pw"), ("name", Val.vstr "Alice"),
          ("location", Val.vstr "NY")]) :=
  ⟨rfl, rfl, rfl⟩

/-- C8 (amended): the password never appears in the projections returned
by the read side — getAllUsers, getUserById, getPostById — while
createUser, updateUser and getUserByUsername return the full user row,
password included. -/
theorem password_excluded_from_projections :
    (∀ (db : DB) (v : Val), v ∈ getAllUsers db → hasField v "password" = false) ∧
    (∀ (db : DB) (uid : Nat) (v : Val),
      getUserById db uid = Except.ok (some v) → hasField v "password" = false) ∧
    (∀ (db : DB) (pid : Nat) (v : Val),
      getPostById db pid = Except.ok v → hasField v "password" = false) ∧
    (∀ (db : DB) (un pw nm loc : String) (v : Val),
      (createUser db un pw nm loc).1 = some v → hasField v "password" = true) ∧
    (∀ (db : DB) (i : Nat) (f : FieldsObj) (v : Val),
      (updateUser db i f).1 = Except.ok (some v) → hasField v "password" = true) ∧
    (∀ (db : DB) (un : String) (v : Val),
      getUserByUsername db un = some v → hasField v "password" = true) := by
  refine ⟨?_, ?_, ?_, ?_, ?_, ?_⟩
  · intro db v hv
    obtain ⟨u, hu, rfl⟩ := List.mem_map.mp hv
    rfl
  · intro db uid v h
    unfold getUserById at h
    cases hfind : db.users.find? (fun u => u.id == uid) with
    | none => rw [hfind] at h; simp at h
    | some u =>
      rw [hfind] at h
      dsimp only at h
      by_cases hz : (u.id == 0) = true
      · rw [if_pos hz] at h; simp at h
      · rw [if_neg hz] at h
        cases hgp : getPostsByUser db u.id with
        | error e => rw [hgp] at h; simp at h
        | ok posts =>
          rw [hgp] at h
          injection h with h
          injection h with h
          subst h
          rfl
  · intro db pid v h
    exact (getPostById_ok_props db pid v h).2.1
  · intro db un pw nm loc v h
    unfold createUser at h
    split at h
    · simp at h
    · injection h with h
      subst h
      rfl
  · intro db i f v h
    simp only [updateUser] at h
    split at h
    · simp at h
    · split at h
      · cases hh : ((db.users.filter (fun u => u.id == i)).map
            (fun u => applyUserFields u f)).head? with
        | none => rw [hh] at h; simp at h
        | some u =>
          rw [hh] at h
          simp only [Option.map_some'] at h
          injection h with h
          injection h with h
          subst h
          rfl
      · simp at h
  · intro db un v h
    unfold getUserByUsername at h
    cases hf : db.users.find? (fun u => u.username == un) with
    | none => rw [hf] at h; simp at h
    | some u =>
      rw [hf] at h
      simp only [Option.map_some'] at h
      injection h with h
      subst h
      rfl

/-- C8 witness for the amended claim: the projection returned by
getAllUsers on the store holding alice has no password field. -/
theorem password_excluded_from_projections_witness :
    hasField (Val.vobj [("id", Val.vnum 1), ("username", Val.vstr "alice"),
      ("name", Val.vstr "Alice"), ("location", Val.vstr "NY")]) "password" = false :=
  password_excluded_from_projections.1 (createUser dbEmpty "alice" "pw" "Alice" "NY").2
    (Val.vobj [("id", Val.vnum 1), ("username", Val.vstr "alice"),
      ("name", Val.vstr "Alice"), ("location", Val.vstr "NY")])
    (by
      have he : getAllUsers (createUser dbEmpty "alice" "pw" "Alice" "NY").2
          = [Val.vobj [("id", Val.vnum 1), ("username", Val.vstr "alice"),
              ("name", Val.vstr "Alice"), ("location", Val.vstr "NY")]] := rfl
      rw [he]
      exact List.mem_singleton.mpr rfl)
